import Mathlib

set_option maxHeartbeats 1000000

/-!
# Shallow embedding of concrete-optimizer-cpp/src/concrete-optimizer.rs

The source file is the cxx FFI bridge of the concrete-optimizer crate.
Machine floats (`f64`) appearing in the bridge are only ever copied and
compared (no arithmetic), so they are modelled exactly by `CO.F64`:
either NaN or a finite rational value, with IEEE comparison semantics
(`<` and `<=` answer false whenever an operand is NaN).

Rust `u64` fields hold key identifiers, sizes and decomposition
parameters that are never subject to arithmetic overflow in the
translated code, so they are modelled as `Nat` (with the distinguished
`NO_KEY_ID` kept at its concrete value `2 ^ 64 - 1`).

Functions that can panic in Rust (`assert!`, `unwrap`, out-of-bounds
indexing) are modelled as `Option`-returning functions where `none`
stands for the panic.
-/

namespace CO

/-- An `f64` as used by the bridge: NaN or an exact finite value. -/
inductive F64 where
  | nan : F64
  | val : Rat → F64
deriving DecidableEq

/-- IEEE comparison `a < b`: false whenever an operand is NaN. -/
def F64.lt : F64 → F64 → Bool
  | F64.val a, F64.val b => decide (a < b)
  | _, _ => false

/-- IEEE comparison `a <= b`: false whenever an operand is NaN. -/
def F64.le : F64 → F64 → Bool
  | F64.val a, F64.val b => decide (a ≤ b)
  | _, _ => false

/-- `ffi::Solution` (source lines 1219-1233). -/
structure Solution where
  input_lwe_dimension : Nat
  internal_ks_output_lwe_dimension : Nat
  ks_decomposition_level_count : Nat
  ks_decomposition_base_log : Nat
  glwe_polynomial_size : Nat
  glwe_dimension : Nat
  br_decomposition_level_count : Nat
  br_decomposition_base_log : Nat
  complexity : F64
  noise_max : F64
  p_error : F64
deriving DecidableEq

/-- Rust `Default` for `ffi::Solution`: numeric fields zero. -/
def Solution.default : Solution :=
  { input_lwe_dimension := 0
    internal_ks_output_lwe_dimension := 0
    ks_decomposition_level_count := 0
    ks_decomposition_base_log := 0
    glwe_polynomial_size := 0
    glwe_dimension := 0
    br_decomposition_level_count := 0
    br_decomposition_base_log := 0
    complexity := F64.val 0
    noise_max := F64.val 0
    p_error := F64.val 0 }

/-- `ffi::DagSolution` (source lines 1235-1256). -/
structure DagSolution where
  input_lwe_dimension : Nat
  internal_ks_output_lwe_dimension : Nat
  ks_decomposition_level_count : Nat
  ks_decomposition_base_log : Nat
  glwe_polynomial_size : Nat
  glwe_dimension : Nat
  br_decomposition_level_count : Nat
  br_decomposition_base_log : Nat
  complexity : F64
  noise_max : F64
  p_error : F64
  global_p_error : F64
  use_wop_pbs : Bool
  cb_decomposition_level_count : Nat
  cb_decomposition_base_log : Nat
  pp_decomposition_level_count : Nat
  pp_decomposition_base_log : Nat
  crt_decomposition : List Nat
deriving DecidableEq

/-- Rust `Default` for `ffi::DagSolution`: zeros, `false`, empty vector. -/
def DagSolution.default : DagSolution :=
  { input_lwe_dimension := 0
    internal_ks_output_lwe_dimension := 0
    ks_decomposition_level_count := 0
    ks_decomposition_base_log := 0
    glwe_polynomial_size := 0
    glwe_dimension := 0
    br_decomposition_level_count := 0
    br_decomposition_base_log := 0
    complexity := F64.val 0
    noise_max := F64.val 0
    p_error := F64.val 0
    global_p_error := F64.val 0
    use_wop_pbs := false
    cb_decomposition_level_count := 0
    cb_decomposition_base_log := 0
    pp_decomposition_level_count := 0
    pp_decomposition_base_log := 0
    crt_decomposition := [] }

/-- `no_solution` (source lines 34-39): the infeasibility sentinel. -/
def no_solution : Solution :=
  { Solution.default with p_error := F64.val 1 }

/-- `no_dag_solution` (source lines 41-46): the infeasibility sentinel. -/
def no_dag_solution : DagSolution :=
  { DagSolution.default with p_error := F64.val 1 }

/-- `ffi::KsDecompositionParameters` (source lines 1301-1306). -/
structure KsDecompositionParameters where
  level : Nat
  log2_base : Nat
deriving DecidableEq

/-- `ffi::BrDecompositionParameters` (source lines 1294-1299). -/
structure BrDecompositionParameters where
  level : Nat
  log2_base : Nat
deriving DecidableEq

/-- `ffi::SecretLweKey` (source lines 1308-1316). -/
structure SecretLweKey where
  identifier : Nat
  polynomial_size : Nat
  glwe_dimension : Nat
  description : String
deriving DecidableEq

/-- `ffi::BootstrapKey` (source lines 1318-1326). -/
structure BootstrapKey where
  identifier : Nat
  input_key : SecretLweKey
  output_key : SecretLweKey
  br_decomposition_parameter : BrDecompositionParameters
  description : String
deriving DecidableEq

/-- `ffi::KeySwitchKey` (source lines 1328-1336). -/
structure KeySwitchKey where
  identifier : Nat
  input_key : SecretLweKey
  output_key : SecretLweKey
  ks_decomposition_parameter : KsDecompositionParameters
  description : String
deriving DecidableEq

/-- `ffi::ConversionKeySwitchKey` (source lines 1338-1347). -/
structure ConversionKeySwitchKey where
  identifier : Nat
  input_key : SecretLweKey
  output_key : SecretLweKey
  ks_decomposition_parameter : KsDecompositionParameters
  fast_keyswitch : Bool
  description : String
deriving DecidableEq

/-- `ffi::CircuitBoostrapKey` (source lines 1349-1356, name as in the source). -/
structure CircuitBoostrapKey where
  identifier : Nat
  representation_key : SecretLweKey
  br_decomposition_parameter : BrDecompositionParameters
  description : String
deriving DecidableEq

/-- `ffi::PrivateFunctionalPackingBoostrapKey` (source lines 1358-1364). -/
structure PrivateFunctionalPackingBoostrapKey where
  identifier : Nat
  representation_key : SecretLweKey
  br_decomposition_parameter : BrDecompositionParameters
  description : String
deriving DecidableEq

/-- `ffi::CircuitKeys` (source lines 1366-1375). -/
structure CircuitKeys where
  secret_keys : List SecretLweKey
  keyswitch_keys : List KeySwitchKey
  bootstrap_keys : List BootstrapKey
  conversion_keyswitch_keys : List ConversionKeySwitchKey
  circuit_bootstrap_keys : List CircuitBoostrapKey
  private_functional_packing_keys : List PrivateFunctionalPackingBoostrapKey
deriving DecidableEq

/-- `ffi::InstructionKeys` (source lines 1377-1387). -/
structure InstructionKeys where
  input_key : Nat
  tlu_keyswitch_key : Nat
  tlu_bootstrap_key : Nat
  tlu_circuit_bootstrap_key : Nat
  tlu_private_functional_packing_key : Nat
  output_key : Nat
  extra_conversion_keys : List Nat
deriving DecidableEq

/-- `ffi::CircuitSolution` (source lines 1389-1400). -/
structure CircuitSolution where
  circuit_keys : CircuitKeys
  instructions_keys : List InstructionKeys
  crt_decomposition : List Nat
  complexity : F64
  p_error : F64
  global_p_error : F64
  is_feasible : Bool
  error_msg : String
deriving DecidableEq

/-- Modelled from the spec: `keys_spec::NO_KEY_ID` lives in the
concrete-optimizer crate, not under src.  The spec describes it as the
distinguished "no key" identifier marking unused slots; its concrete
value is the reserved `u64::MAX`. -/
def NO_KEY_ID : Nat := 2 ^ 64 - 1

/-- Modelled from the spec: an operator node of `unparametrized::Dag`
(the graph type lives in the concrete-optimizer crate, not under src).
Only what the bridge consumes is kept: the stable operator index, and
whether the operator is an Input variant or is tagged as an output. -/
structure OperatorNode where
  id : Nat
  is_input : Bool
  is_output : Bool
deriving DecidableEq

/-- Modelled from the spec: a named circuit, its operators kept in
declaration order (the graph stores operators as a dense append-only
sequence). -/
structure Circuit where
  name : String
  ops : List OperatorNode
deriving DecidableEq

/-- Modelled from the spec: the `Dag` wrapper (source line 544) around
`unparametrized::Dag`: named circuits plus composition edges recorded
at the graph level as pairs of operator indices. -/
structure Dag where
  circuits : List Circuit
  compositions : List (Nat × Nat)
deriving DecidableEq

/-- Modelled from the spec: total number of operators of the graph
(`dag.0.len()` in the source). -/
def Dag.len (d : Dag) : Nat :=
  (d.circuits.map (fun c => c.ops.length)).sum

/-- Modelled from the spec: a graph is composed if it has at least one
composition edge (`is_composed` in the concrete-optimizer crate). -/
def Dag.is_composed (d : Dag) : Bool :=
  !d.compositions.isEmpty

/-- Modelled from the spec: `get_circuit` resolves a circuit by name
(`none` models the fatal error on a name that does not exist). -/
def Dag.get_circuit (d : Dag) (n : String) : Option Circuit :=
  d.circuits.find? (fun c => c.name == n)

/-- Modelled from the spec: `get_output_operators_iter` of a circuit:
the operators tagged as output, in declaration order. -/
def Circuit.outputs (c : Circuit) : List OperatorNode :=
  c.ops.filter (fun o => o.is_output)

/-- Modelled from the spec: `get_input_operators_iter` of a circuit:
the Input operators, in declaration order. -/
def Circuit.inputs (c : Circuit) : List OperatorNode :=
  c.ops.filter (fun o => o.is_input)

/-- `Dag::add_composition` (source lines 607-629): resolve `from_pos`
in the from-circuit's outputs and `to_pos` in the to-circuit's inputs,
then record the edge.  `none` models the panics (`unwrap` on a missing
circuit name or an out-of-range position). -/
def Dag.add_composition (dag : Dag) (from_func : String) (from_pos : Nat)
    (to_func : String) (to_pos : Nat) : Option Dag :=
  (dag.get_circuit from_func).bind fun fc =>
    fc.outputs[from_pos]?.bind fun from_op =>
      (dag.get_circuit to_func).bind fun tc =>
        tc.inputs[to_pos]?.bind fun to_op =>
          some { dag with compositions := dag.compositions ++ [(from_op.id, to_op.id)] }

/-- `convert_to_circuit_solution` (source lines 292-390), translated
verbatim: the single-partition keyset template. -/
def convert_to_circuit_solution (sol : DagSolution) (dag : Dag) : CircuitSolution :=
  let big_key : SecretLweKey :=
    { identifier := 0
      polynomial_size := sol.glwe_polynomial_size
      glwe_dimension := sol.glwe_dimension
      description := "big representation" }
  let small_key : SecretLweKey :=
    { identifier := 1
      polynomial_size := sol.internal_ks_output_lwe_dimension
      glwe_dimension := 1
      description := "small representation" }
  let keyswitch_key : KeySwitchKey :=
    { identifier := 0
      input_key := big_key
      output_key := small_key
      ks_decomposition_parameter :=
        { level := sol.ks_decomposition_level_count
          log2_base := sol.ks_decomposition_base_log }
      description := "tlu keyswitch" }
  let bootstrap_key : BootstrapKey :=
    { identifier := 0
      input_key := small_key
      output_key := big_key
      br_decomposition_parameter :=
        { level := sol.br_decomposition_level_count
          log2_base := sol.br_decomposition_base_log }
      description := "tlu bootstrap" }
  let circuit_bootstrap_keys : List CircuitBoostrapKey :=
    if sol.use_wop_pbs then
      [{ identifier := 0
         representation_key := big_key
         br_decomposition_parameter :=
           { level := sol.cb_decomposition_level_count
             log2_base := sol.cb_decomposition_base_log }
         description := "circuit bootstrap for woppbs" }]
    else []
  let private_functional_packing_keys : List PrivateFunctionalPackingBoostrapKey :=
    if sol.use_wop_pbs then
      [{ identifier := 0
         representation_key := big_key
         br_decomposition_parameter :=
           { level := sol.pp_decomposition_level_count
             log2_base := sol.pp_decomposition_base_log }
         description := "private functional packing for woppbs" }]
    else []
  let instruction_keys : InstructionKeys :=
    { input_key := big_key.identifier
      tlu_keyswitch_key := keyswitch_key.identifier
      tlu_bootstrap_key := bootstrap_key.identifier
      tlu_circuit_bootstrap_key :=
        (circuit_bootstrap_keys.getLast?).elim NO_KEY_ID (fun v => v.identifier)
      tlu_private_functional_packing_key :=
        (private_functional_packing_keys.getLast?).elim NO_KEY_ID (fun v => v.identifier)
      output_key := big_key.identifier
      extra_conversion_keys := [] }
  let instructions_keys : List InstructionKeys := List.replicate dag.len instruction_keys
  let circuit_keys : CircuitKeys :=
    { secret_keys := [big_key, small_key]
      keyswitch_keys := [keyswitch_key]
      bootstrap_keys := [bootstrap_key]
      conversion_keyswitch_keys := []
      circuit_bootstrap_keys := circuit_bootstrap_keys
      private_functional_packing_keys := private_functional_packing_keys }
  let is_feasible : Bool := F64.lt sol.p_error (F64.val 1)
  let error_msg : String :=
    if is_feasible then "" else "No crypto-parameters for the given constraints"
  { circuit_keys := circuit_keys
    instructions_keys := instructions_keys
    crt_decomposition := sol.crt_decomposition
    complexity := sol.complexity
    p_error := sol.p_error
    global_p_error := sol.global_p_error
    is_feasible := is_feasible
    error_msg := error_msg }

/-- Modelled from the spec: `atomic_pattern::Solution` (external search
result type, not under src), with exactly the fields the bridge's
`From` impl (source lines 227-243) reads. -/
structure AtomicSolution where
  input_lwe_dimension : Nat
  internal_ks_output_lwe_dimension : Nat
  ks_decomposition_level_count : Nat
  ks_decomposition_base_log : Nat
  glwe_polynomial_size : Nat
  glwe_dimension : Nat
  br_decomposition_level_count : Nat
  br_decomposition_base_log : Nat
  complexity : F64
  noise_max : F64
  p_error : F64
deriving DecidableEq

/-- `From<atomic_pattern::Solution> for ffi::Solution` (source lines 227-243). -/
def solution_from_atomic (a : AtomicSolution) : Solution :=
  { input_lwe_dimension := a.input_lwe_dimension
    internal_ks_output_lwe_dimension := a.internal_ks_output_lwe_dimension
    ks_decomposition_level_count := a.ks_decomposition_level_count
    ks_decomposition_base_log := a.ks_decomposition_base_log
    glwe_polynomial_size := a.glwe_polynomial_size
    glwe_dimension := a.glwe_dimension
    br_decomposition_level_count := a.br_decomposition_level_count
    br_decomposition_base_log := a.br_decomposition_base_log
    complexity := a.complexity
    noise_max := a.noise_max
    p_error := a.p_error }

/-- `optimize_bootstrap` (source lines 119-147): the external search
`optimize_one` is abstracted by its `best_solution` field; the bridge
maps a missing best solution to the `no_solution` sentinel. -/
def optimize_bootstrap (best_solution : Option AtomicSolution) : Solution :=
  match best_solution with
  | none => no_solution
  | some s => solution_from_atomic s

/-- Modelled from the spec: the Wp variant payload of the external
`solo_key::optimize_generic::Solution`, with exactly the fields the
bridge's `From` impl (source lines 245-290) reads. -/
structure SoloWpSolution where
  input_lwe_dimension : Nat
  internal_ks_output_lwe_dimension : Nat
  ks_decomposition_level_count : Nat
  ks_decomposition_base_log : Nat
  glwe_polynomial_size : Nat
  glwe_dimension : Nat
  br_decomposition_level_count : Nat
  br_decomposition_base_log : Nat
  complexity : F64
  noise_max : F64
  p_error : F64
  global_p_error : F64
deriving DecidableEq

/-- Modelled from the spec: the Wop variant payload of the external
`solo_key::optimize_generic::Solution` (fields read at source lines 268-287). -/
structure SoloWopSolution where
  input_lwe_dimension : Nat
  internal_ks_output_lwe_dimension : Nat
  ks_decomposition_level_count : Nat
  ks_decomposition_base_log : Nat
  glwe_polynomial_size : Nat
  glwe_dimension : Nat
  br_decomposition_level_count : Nat
  br_decomposition_base_log : Nat
  complexity : F64
  noise_max : F64
  p_error : F64
  global_p_error : F64
  cb_decomposition_level_count : Nat
  cb_decomposition_base_log : Nat
  pp_decomposition_level_count : Nat
  pp_decomposition_base_log : Nat
  crt_decomposition : List Nat
deriving DecidableEq

/-- Modelled from the spec: the external solve result enum
(`WpSolution` or `WopSolution`). -/
inductive SoloDagSolution where
  | WpSolution : SoloWpSolution → SoloDagSolution
  | WopSolution : SoloWopSolution → SoloDagSolution
deriving DecidableEq

/-- `From<DagSolution> for ffi::DagSolution` (source lines 245-290). -/
def dag_solution_from_solo : SoloDagSolution → DagSolution
  | SoloDagSolution.WpSolution s =>
    { input_lwe_dimension := s.input_lwe_dimension
      internal_ks_output_lwe_dimension := s.internal_ks_output_lwe_dimension
      ks_decomposition_level_count := s.ks_decomposition_level_count
      ks_decomposition_base_log := s.ks_decomposition_base_log
      glwe_polynomial_size := s.glwe_polynomial_size
      glwe_dimension := s.glwe_dimension
      br_decomposition_level_count := s.br_decomposition_level_count
      br_decomposition_base_log := s.br_decomposition_base_log
      complexity := s.complexity
      noise_max := s.noise_max
      p_error := s.p_error
      global_p_error := s.global_p_error
      use_wop_pbs := false
      cb_decomposition_level_count := 0
      cb_decomposition_base_log := 0
      pp_decomposition_level_count := 0
      pp_decomposition_base_log := 0
      crt_decomposition := [] }
  | SoloDagSolution.WopSolution s =>
    { input_lwe_dimension := s.input_lwe_dimension
      internal_ks_output_lwe_dimension := s.internal_ks_output_lwe_dimension
      ks_decomposition_level_count := s.ks_decomposition_level_count
      ks_decomposition_base_log := s.ks_decomposition_base_log
      glwe_polynomial_size := s.glwe_polynomial_size
      glwe_dimension := s.glwe_dimension
      br_decomposition_level_count := s.br_decomposition_level_count
      br_decomposition_base_log := s.br_decomposition_base_log
      complexity := s.complexity
      noise_max := s.noise_max
      p_error := s.p_error
      global_p_error := s.global_p_error
      use_wop_pbs := true
      cb_decomposition_level_count := s.cb_decomposition_level_count
      cb_decomposition_base_log := s.cb_decomposition_base_log
      pp_decomposition_level_count := s.pp_decomposition_level_count
      pp_decomposition_base_log := s.pp_decomposition_base_log
      crt_decomposition := s.crt_decomposition }

/-- `Dag::optimize` (source lines 573-601): the external single-key
search is abstracted by its result; the composition guard and both
sentinel paths are translated verbatim. -/
def Dag.optimize (dag : Dag) (search_result : Option SoloDagSolution) : DagSolution :=
  if dag.is_composed then no_dag_solution
  else
    match search_result with
    | none => no_dag_solution
    | some s => dag_solution_from_solo s

/-- The precondition claim C9 states for
`From<&ffi::CircuitSolution> for ffi::DagSolution`. -/
def claimed_wop_pre (sol : CircuitSolution) : Prop :=
  sol.circuit_keys.secret_keys.length = 2 ∧
  (sol.circuit_keys.circuit_bootstrap_keys ≠ [] →
    sol.circuit_keys.circuit_bootstrap_keys.length = 1 ∧
    sol.circuit_keys.private_functional_packing_keys.length = 1)

/-- The actual precondition under which the conversion succeeds:
claim C9's precondition plus non-empty keyswitch and bootstrap key
vectors (indexed unconditionally at source lines 186-187). -/
def wop_conversion_pre (sol : CircuitSolution) : Prop :=
  sol.circuit_keys.secret_keys.length = 2 ∧
  sol.circuit_keys.keyswitch_keys ≠ [] ∧
  sol.circuit_keys.bootstrap_keys ≠ [] ∧
  (sol.circuit_keys.circuit_bootstrap_keys ≠ [] →
    sol.circuit_keys.circuit_bootstrap_keys.length = 1 ∧
    sol.circuit_keys.private_functional_packing_keys.length = 1)

/-- `From<&ffi::CircuitSolution> for ffi::DagSolution` (source lines
178-225).  `none` models the panics: the `assert!`s on the key vector
lengths and the unchecked indexing of `keyswitch_keys[0]`,
`bootstrap_keys[0]`, `circuit_bootstrap_keys[0]` and
`private_functional_packing_keys[0]`. -/
def dag_solution_from_circuit_solution (sol : CircuitSolution) : Option DagSolution :=
  match sol.circuit_keys.secret_keys, sol.circuit_keys.keyswitch_keys,
      sol.circuit_keys.bootstrap_keys with
  | [big_key, small_key], keyswitch_key :: _, bootstrap_key :: _ =>
    let use_wop_pbs : Bool := !sol.circuit_keys.circuit_bootstrap_keys.isEmpty
    let base : DagSolution :=
      { input_lwe_dimension := big_key.polynomial_size * big_key.glwe_dimension
        internal_ks_output_lwe_dimension :=
          small_key.polynomial_size * small_key.glwe_dimension
        ks_decomposition_level_count := keyswitch_key.ks_decomposition_parameter.level
        ks_decomposition_base_log := keyswitch_key.ks_decomposition_parameter.log2_base
        glwe_polynomial_size := big_key.polynomial_size
        glwe_dimension := big_key.glwe_dimension
        br_decomposition_level_count := bootstrap_key.br_decomposition_parameter.level
        br_decomposition_base_log := bootstrap_key.br_decomposition_parameter.log2_base
        complexity := sol.complexity
        noise_max := F64.nan
        p_error := sol.p_error
        global_p_error := sol.global_p_error
        use_wop_pbs := use_wop_pbs
        cb_decomposition_level_count := 0
        cb_decomposition_base_log := 0
        pp_decomposition_level_count := 0
        pp_decomposition_base_log := 0
        crt_decomposition := sol.crt_decomposition }
    if use_wop_pbs then
      match sol.circuit_keys.circuit_bootstrap_keys,
          sol.circuit_keys.private_functional_packing_keys with
      | [cb_key], [pp_key] =>
        some { base with
          cb_decomposition_level_count := cb_key.br_decomposition_parameter.level
          cb_decomposition_base_log := cb_key.br_decomposition_parameter.log2_base
          pp_decomposition_level_count := pp_key.br_decomposition_parameter.level
          pp_decomposition_base_log := pp_key.br_decomposition_parameter.log2_base }
      | _, _ => none
    else some base
  | _, _, _ => none

/-- The instruction-keys template used by C4's key-consistency
predicate: every non-"no-key" identifier referenced by an
`InstructionKeys` record exists in the corresponding vector of the
accompanying `CircuitKeys`. -/
def key_refs_ok (ck : CircuitKeys) (ik : InstructionKeys) : Prop :=
  (∃ k, k ∈ ck.secret_keys ∧ k.identifier = ik.input_key)
  ∧ (∃ k, k ∈ ck.keyswitch_keys ∧ k.identifier = ik.tlu_keyswitch_key)
  ∧ (∃ k, k ∈ ck.bootstrap_keys ∧ k.identifier = ik.tlu_bootstrap_key)
  ∧ (∃ k, k ∈ ck.secret_keys ∧ k.identifier = ik.output_key)
  ∧ (ik.tlu_circuit_bootstrap_key ≠ NO_KEY_ID →
      ∃ k, k ∈ ck.circuit_bootstrap_keys ∧ k.identifier = ik.tlu_circuit_bootstrap_key)
  ∧ (ik.tlu_private_functional_packing_key ≠ NO_KEY_ID →
      ∃ k, k ∈ ck.private_functional_packing_keys
        ∧ k.identifier = ik.tlu_private_functional_packing_key)
  ∧ (∀ i ∈ ik.extra_conversion_keys,
      ∃ k, k ∈ ck.conversion_keyswitch_keys ∧ k.identifier = i)

/-- `ffi::RangeRestriction` (source lines 1265-1275). -/
structure RangeRestriction where
  glwe_log_polynomial_sizes : List Nat
  glwe_dimensions : List Nat
  internal_lwe_dimensions : List Nat
  pbs_level_count : List Nat
  pbs_base_log : List Nat
  ks_level_count : List Nat
  ks_base_log : List Nat
deriving DecidableEq

/-- `ffi::LweSecretKeyInfo` (source lines 1402-1406). -/
structure LweSecretKeyInfo where
  lwe_dimension : Nat
deriving DecidableEq

/-- `ffi::LweBootstrapKeyInfo` (source lines 1408-1416). -/
structure LweBootstrapKeyInfo where
  level_count : Nat
  base_log : Nat
  glwe_dimension : Nat
  polynomial_size : Nat
  input_lwe_dimension : Nat
deriving DecidableEq

/-- `ffi::LweKeyswitchKeyInfo` (source lines 1418-1425). -/
structure LweKeyswitchKeyInfo where
  level_count : Nat
  base_log : Nat
  input_lwe_dimension : Nat
  output_lwe_dimension : Nat
deriving DecidableEq

/-- `ffi::KeysetInfo` (source lines 1427-1433). -/
structure KeysetInfo where
  lwe_secret_keys : List LweSecretKeyInfo
  lwe_bootstrap_keys : List LweBootstrapKeyInfo
  lwe_keyswitch_keys : List LweKeyswitchKeyInfo
deriving DecidableEq

/-- `ffi::KeysetRestriction` (source lines 1435-1439). -/
structure KeysetRestriction where
  info : KeysetInfo
deriving DecidableEq

/-!
## Textual interchange of restriction objects

Modelled from the spec: the serialization of restriction objects is done
by the serde machinery of the concrete-optimizer crate (not under src;
the bridge merely calls `serde_json::to_string` / `serde_json::from_str`
and `unwrap`s the result).  The spec prescribes a lossless textual
interchange form of the full field set, independent of how the
interchange is implemented, with a parse failure on malformed input
being fatal.  We therefore model a concrete textual format covering the
full field set: every number is written as its binary digits (least
significant first, no trailing zero digit) terminated by `e`, every list
is the concatenation of its encoded elements terminated by `;`, and the
fields of a restriction are written in declaration order.  The parser
returns `none` (the model of the fatal `unwrap` failure) on any input it
cannot read back, and only accepts canonical encodings.
-/

/-- Binary digits of a number, least significant first, no trailing
zero digit (so `0` has no digits). -/
def natBits (n : Nat) : List Char :=
  if h : n = 0 then []
  else (if n % 2 = 1 then '1' else '0') :: natBits (n / 2)
decreasing_by exact Nat.div_lt_self (Nat.pos_of_ne_zero h) one_lt_two

/-- The value read back from binary digits, least significant first. -/
def bitsVal : List Char → Nat
  | [] => 0
  | c :: bs => (if c = '1' then 1 else 0) + 2 * bitsVal bs

/-- A serialized number: its digits followed by the terminator `e`. -/
def encNat (n : Nat) : List Char := natBits n ++ ['e']

/-- Read digit characters up to the terminator `e`. -/
def takeBits : List Char → Option (List Char × List Char)
  | [] => none
  | c :: rest =>
    if c = 'e' then some ([], rest)
    else if c = '0' ∨ c = '1' then
      match takeBits rest with
      | none => none
      | some (bs, r) => some (c :: bs, r)
    else none

/-- Parse one serialized number; only the canonical digit string of its
value is accepted. -/
def parseNat (cs : List Char) : Option (Nat × List Char) :=
  (takeBits cs).bind fun p =>
    if natBits (bitsVal p.1) = p.1 then some (bitsVal p.1, p.2) else none

/-- A serialized list: the encoded elements in order, then `;`. -/
def encList {α : Type _} (ee : α → List Char) (l : List α) : List Char :=
  (l.map ee).flatten ++ [';']

/-- Fuelled list parser: elements via `pe` until the terminator `;`. -/
def parseListF {α : Type _} (pe : List Char → Option (α × List Char)) :
    Nat → List Char → Option (List α × List Char)
  | 0, _ => none
  | _ + 1, [] => none
  | fuel + 1, c :: rest =>
    if c = ';' then some ([], rest)
    else
      match pe (c :: rest) with
      | none => none
      | some (a, r) =>
        match parseListF pe fuel r with
        | none => none
        | some (l, r2) => some (a :: l, r2)

/-- Parse a serialized list of numbers. -/
def parseNatList (cs : List Char) : Option (List Nat × List Char) :=
  parseListF parseNat (cs.length + 1) cs

/-- Serialize a `RangeRestriction`: its seven list fields in
declaration order. -/
def encRange (r : RangeRestriction) : List Char :=
  encList encNat r.glwe_log_polynomial_sizes
    ++ encList encNat r.glwe_dimensions
    ++ encList encNat r.internal_lwe_dimensions
    ++ encList encNat r.pbs_level_count
    ++ encList encNat r.pbs_base_log
    ++ encList encNat r.ks_level_count
    ++ encList encNat r.ks_base_log

/-- Parse the seven list fields of a `RangeRestriction` in order. -/
def parseRange (cs : List Char) : Option (RangeRestriction × List Char) :=
  (parseNatList cs).bind fun p1 =>
    (parseNatList p1.2).bind fun p2 =>
      (parseNatList p2.2).bind fun p3 =>
        (parseNatList p3.2).bind fun p4 =>
          (parseNatList p4.2).bind fun p5 =>
            (parseNatList p5.2).bind fun p6 =>
              (parseNatList p6.2).bind fun p7 =>
                some (⟨p1.1, p2.1, p3.1, p4.1, p5.1, p6.1, p7.1⟩, p7.2)

/-- `range_restriction_to_json` (source lines 978-984); the textual
form itself is modelled from the spec, see above. -/
def range_restriction_to_json (r : RangeRestriction) : String :=
  String.mk (encRange r)

/-- `range_restriction_from_json` (source lines 986-992): `none` models
the fatal `unwrap` on a malformed payload.  The whole input must be
consumed. -/
def range_restriction_from_json (s : String) : Option RangeRestriction :=
  match parseRange s.data with
  | some (r, []) => some r
  | _ => none

/-- Serialize an `LweSecretKeyInfo` (one field). -/
def encSecretInfo (k : LweSecretKeyInfo) : List Char := encNat k.lwe_dimension

/-- Parse an `LweSecretKeyInfo`. -/
def parseSecretInfo (cs : List Char) : Option (LweSecretKeyInfo × List Char) :=
  (parseNat cs).bind fun p => some (⟨p.1⟩, p.2)

/-- Serialize an `LweBootstrapKeyInfo`: its five fields in declaration
order. -/
def encBskInfo (k : LweBootstrapKeyInfo) : List Char :=
  encNat k.level_count ++ encNat k.base_log ++ encNat k.glwe_dimension
    ++ encNat k.polynomial_size ++ encNat k.input_lwe_dimension

/-- Parse an `LweBootstrapKeyInfo`. -/
def parseBskInfo (cs : List Char) : Option (LweBootstrapKeyInfo × List Char) :=
  (parseNat cs).bind fun p1 =>
    (parseNat p1.2).bind fun p2 =>
      (parseNat p2.2).bind fun p3 =>
        (parseNat p3.2).bind fun p4 =>
          (parseNat p4.2).bind fun p5 =>
            some (⟨p1.1, p2.1, p3.1, p4.1, p5.1⟩, p5.2)

/-- Serialize an `LweKeyswitchKeyInfo`: its four fields in declaration
order. -/
def encKskInfo (k : LweKeyswitchKeyInfo) : List Char :=
  encNat k.level_count ++ encNat k.base_log ++ encNat k.input_lwe_dimension
    ++ encNat k.output_lwe_dimension

/-- Parse an `LweKeyswitchKeyInfo`. -/
def parseKskInfo (cs : List Char) : Option (LweKeyswitchKeyInfo × List Char) :=
  (parseNat cs).bind fun p1 =>
    (parseNat p1.2).bind fun p2 =>
      (parseNat p2.2).bind fun p3 =>
        (parseNat p3.2).bind fun p4 =>
          some (⟨p1.1, p2.1, p3.1, p4.1⟩, p4.2)

/-- Serialize a `KeysetRestriction`: the three key-info lists of its
`info` field in declaration order. -/
def encKeyset (k : KeysetRestriction) : List Char :=
  encList encSecretInfo k.info.lwe_secret_keys
    ++ encList encBskInfo k.info.lwe_bootstrap_keys
    ++ encList encKskInfo k.info.lwe_keyswitch_keys

/-- Parse a serialized list of `LweSecretKeyInfo`. -/
def parseSecretList (cs : List Char) : Option (List LweSecretKeyInfo × List Char) :=
  parseListF parseSecretInfo (cs.length + 1) cs

/-- Parse a serialized list of `LweBootstrapKeyInfo`. -/
def parseBskList (cs : List Char) : Option (List LweBootstrapKeyInfo × List Char) :=
  parseListF parseBskInfo (cs.length + 1) cs

/-- Parse a serialized list of `LweKeyswitchKeyInfo`. -/
def parseKskList (cs : List Char) : Option (List LweKeyswitchKeyInfo × List Char) :=
  parseListF parseKskInfo (cs.length + 1) cs

/-- Parse the three list fields of a `KeysetRestriction` in order. -/
def parseKeyset (cs : List Char) : Option (KeysetRestriction × List Char) :=
  (parseSecretList cs).bind fun p1 =>
    (parseBskList p1.2).bind fun p2 =>
      (parseKskList p2.2).bind fun p3 =>
        some (⟨⟨p1.1, p2.1, p3.1⟩⟩, p3.2)

/-- `keyset_restriction_to_json` (source lines 994-1000); the textual
form itself is modelled from the spec. -/
def keyset_restriction_to_json (k : KeysetRestriction) : String :=
  String.mk (encKeyset k)

/-- `keyset_restriction_from_json` (source lines 1002-1008): `none`
models the fatal `unwrap` on a malformed payload. -/
def keyset_restriction_from_json (s : String) : Option KeysetRestriction :=
  match parseKeyset s.data with
  | some (k, []) => some k
  | _ => none

/-- Rust `str::split(':')` on a character list: fields separated by
`:`, empty fields preserved (so the empty input has one empty field). -/
def splitCols : List Char → List (List Char)
  | [] => [[]]
  | c :: rest =>
    if c = ':' then [] :: splitCols rest
    else
      match splitCols rest with
      | [] => [[c]]
      | g :: gs => (c :: g) :: gs

/-- Rust decimal parsing of a `u64` digit string: at least one decimal
digit, rejected when the value exceeds `u64::MAX` (the source's
`parse()` accumulates with checked arithmetic and returns
`Err(PosOverflow)`; since appending digits only grows the value, a
checked step fails exactly when the full value exceeds `u64::MAX`). -/
def parseDigits (cs : List Char) : Option Nat :=
  if cs ≠ [] ∧ cs.all (fun c => c.isDigit) then
    let v := cs.foldl (fun acc c => acc * 10 + (c.toNat - 48)) 0
    if v < 2 ^ 64 then some v else none
  else none

/-- Rust `str::parse::<unsigned>` including the optional leading `+`. -/
def parseU (cs : List Char) : Option Nat :=
  match cs with
  | '+' :: rest => parseDigits rest
  | _ => parseDigits cs

/-- Modelled from the spec: `operator::Location` (defined in the
concrete-optimizer crate, not under src): unknown, file, file+line, or
file+line+column. -/
inductive Location where
  | Unknown : Location
  | File : List Char → Location
  | Line : List Char → Nat → Location
  | LineColumn : List Char → Nat → Nat → Location
deriving DecidableEq

/-- `location_from_string` (source lines 900-915): split on `:` and
match on the number of fields; `none` models the `unwrap` panic on an
unparseable line or column field. -/
def location_from_string (s : List Char) : Option Location :=
  match splitCols s with
  | [file] => some (Location.File file)
  | [file, line] =>
    match parseU line with
    | some l => some (Location.Line file l)
    | none => none
  | [file, line, column] =>
    match parseU line, parseU column with
    | some l, some c => some (Location.LineColumn file l c)
    | _, _ => none
  | _ => some Location.Unknown

/-- Fixture for C8's witness: two circuits, each with one input and one
output operator. -/
def c8_dag : Dag :=
  { circuits :=
      [ { name := "f", ops := [⟨0, true, false⟩, ⟨1, false, true⟩] },
        { name := "g", ops := [⟨2, true, false⟩, ⟨3, false, true⟩] } ]
    compositions := [] }

/-- Fixture for C9's counterexample: two secret keys but no keyswitch
or bootstrap key at all. -/
def c9_bad_sol : CircuitSolution :=
  { circuit_keys :=
      { secret_keys := [⟨0, 2, 1, "big"⟩, ⟨1, 1, 1, "small"⟩]
        keyswitch_keys := []
        bootstrap_keys := []
        conversion_keyswitch_keys := []
        circuit_bootstrap_keys := []
        private_functional_packing_keys := [] }
    instructions_keys := []
    crt_decomposition := []
    complexity := F64.val 0
    p_error := F64.val 0
    global_p_error := F64.val 0
    is_feasible := true
    error_msg := "" }

/-- Fixture for C9's witness: a minimal well-formed circuit solution. -/
def c9_good_sol : CircuitSolution :=
  { circuit_keys :=
      { secret_keys := [⟨0, 2, 1, "big"⟩, ⟨1, 1, 1, "small"⟩]
        keyswitch_keys := [⟨0, ⟨0, 2, 1, "big"⟩, ⟨1, 1, 1, "small"⟩, ⟨1, 1⟩, "ks"⟩]
        bootstrap_keys := [⟨0, ⟨1, 1, 1, "small"⟩, ⟨0, 2, 1, "big"⟩, ⟨1, 1⟩, "bs"⟩]
        conversion_keyswitch_keys := []
        circuit_bootstrap_keys := []
        private_functional_packing_keys := [] }
    instructions_keys := []
    crt_decomposition := []
    complexity := F64.val 0
    p_error := F64.val 0
    global_p_error := F64.val 0
    is_feasible := true
    error_msg := "" }

/-!
## Theorems
-/

/-- C1 (counterexample): the claim says every `CircuitSolution`
produced by `convert_to_circuit_solution` with `is_feasible = false`
has `p_error` exactly 1.0.  An input `DagSolution` with `p_error = 2.0`
is converted to an infeasible solution whose `p_error` is 2.0, not 1.0
(the function copies `p_error` verbatim and only computes
`is_feasible` as `p_error < 1.0`). -/
theorem c1_counterexample :
    (convert_to_circuit_solution { DagSolution.default with p_error := F64.val 2 }
        { circuits := [], compositions := [] }).is_feasible = false
    ∧ (convert_to_circuit_solution { DagSolution.default with p_error := F64.val 2 }
        { circuits := [], compositions := [] }).p_error ≠ F64.val 1 := by
  constructor
  · decide
  · decide

/-- C1 (amended): `convert_to_circuit_solution` sets
`is_feasible` exactly when `p_error < 1.0` and copies `p_error`
verbatim, so a feasible solution always has `p_error < 1.0` and the
1.0 sentinel is never produced feasible; whenever the input
`DagSolution`'s `p_error` is at most 1.0 (as for every solution the
optimizer itself produces, 1.0 being the sentinel), an infeasible
output has `p_error` exactly 1.0.  The "no solution" `Solution` and
`DagSolution` sentinels returned by `optimize_bootstrap` and
`Dag::optimize` when the search finds nothing have `p_error` exactly
1.0. -/
theorem c1_sentinel_invariant :
    (∀ (sol : DagSolution) (dag : Dag),
        ((convert_to_circuit_solution sol dag).is_feasible = true ↔
          F64.lt sol.p_error (F64.val 1) = true)
        ∧ (convert_to_circuit_solution sol dag).p_error = sol.p_error
        ∧ (F64.le sol.p_error (F64.val 1) = true →
            (convert_to_circuit_solution sol dag).is_feasible = false →
            (convert_to_circuit_solution sol dag).p_error = F64.val 1))
    ∧ no_solution.p_error = F64.val 1
    ∧ no_dag_solution.p_error = F64.val 1
    ∧ optimize_bootstrap none = no_solution
    ∧ (∀ dag, Dag.optimize dag none = no_dag_solution) := by
  refine ⟨?_, rfl, rfl, rfl, ?_⟩
  · intro sol dag
    refine ⟨Iff.rfl, rfl, ?_⟩
    intro hle hfe
    have hlt : F64.lt sol.p_error (F64.val 1) = false := hfe
    show sol.p_error = F64.val 1
    cases hp : sol.p_error with
    | nan => rw [hp] at hle; simp [F64.le] at hle
    | val q =>
      rw [hp] at hle hlt
      simp only [F64.le, decide_eq_true_eq] at hle
      simp only [F64.lt, decide_eq_false_iff_not] at hlt
      exact congrArg F64.val (le_antisymm hle (not_lt.mp hlt))
  · intro dag
    unfold Dag.optimize
    split <;> rfl

/-- C1 (witness): the amended invariant applied to the sentinel
`no_dag_solution` itself. -/
theorem c1_witness :
    (convert_to_circuit_solution no_dag_solution
        { circuits := [], compositions := [] }).is_feasible = false
    ∧ (convert_to_circuit_solution no_dag_solution
        { circuits := [], compositions := [] }).p_error = F64.val 1 := by
  have h := (c1_sentinel_invariant.1 no_dag_solution
    { circuits := [], compositions := [] }).2.2
  have hfe : (convert_to_circuit_solution no_dag_solution
      { circuits := [], compositions := [] }).is_feasible = false := by decide
  exact ⟨hfe, h (by decide) hfe⟩

/-- C2: a composed graph (at least one composition edge) makes
`Dag::optimize` return the infeasibility sentinel, whatever the
underlying search would have returned (the search result does not
occur in the output). -/
theorem c2_composed_returns_sentinel :
    ∀ (dag : Dag) (search_result : Option SoloDagSolution),
      dag.is_composed = true →
      Dag.optimize dag search_result = no_dag_solution := by
  intro dag sr h
  simp [Dag.optimize, h]

/-- C2 (witness): a graph with one composition edge. -/
theorem c2_witness :
    Dag.optimize { circuits := [], compositions := [(0, 0)] } none = no_dag_solution :=
  c2_composed_returns_sentinel _ _ (by decide)

/-- C5: the emitted `CircuitSolution` has exactly one
`InstructionKeys` record per operator of the graph, and all records
are one repeated template. -/
theorem c5_one_record_per_operator :
    ∀ (sol : DagSolution) (dag : Dag),
      (convert_to_circuit_solution sol dag).instructions_keys.length = dag.len
      ∧ ∃ t, (convert_to_circuit_solution sol dag).instructions_keys =
          List.replicate dag.len t := by
  intro sol dag
  exact ⟨List.length_replicate _ _, _, rfl⟩

/-- C3: the emitted `CircuitKeys` holds exactly one big secret key
(sized by the GLWE polynomial size and GLWE dimension), exactly one
small secret key (sized by the post-keyswitch dimension), exactly one
keyswitch key from big to small, exactly one bootstrap key from small
to big, and exactly one circuit-bootstrap key and one
private-functional-packing key on the big representation if and only
if `use_wop_pbs` is set (both vectors empty otherwise). -/
theorem c3_circuit_keys_structure :
    ∀ (sol : DagSolution) (dag : Dag),
      ∃ big small ksk bsk,
        (convert_to_circuit_solution sol dag).circuit_keys.secret_keys = [big, small]
        ∧ big.polynomial_size = sol.glwe_polynomial_size
        ∧ big.glwe_dimension = sol.glwe_dimension
        ∧ small.polynomial_size = sol.internal_ks_output_lwe_dimension
        ∧ small.glwe_dimension = 1
        ∧ (convert_to_circuit_solution sol dag).circuit_keys.keyswitch_keys = [ksk]
        ∧ ksk.input_key = big
        ∧ ksk.output_key = small
        ∧ (convert_to_circuit_solution sol dag).circuit_keys.bootstrap_keys = [bsk]
        ∧ bsk.input_key = small
        ∧ bsk.output_key = big
        ∧ (sol.use_wop_pbs = true →
            ∃ cbk pfpk,
              (convert_to_circuit_solution sol dag).circuit_keys.circuit_bootstrap_keys
                = [cbk]
              ∧ cbk.representation_key = big
              ∧ (convert_to_circuit_solution sol
                  dag).circuit_keys.private_functional_packing_keys = [pfpk]
              ∧ pfpk.representation_key = big)
        ∧ (sol.use_wop_pbs = false →
            (convert_to_circuit_solution sol dag).circuit_keys.circuit_bootstrap_keys = []
            ∧ (convert_to_circuit_solution sol
                dag).circuit_keys.private_functional_packing_keys = []) := by
  intro sol dag
  refine ⟨_, _, _, _, rfl, rfl, rfl, rfl, rfl, rfl, rfl, rfl, rfl, rfl, rfl, ?_, ?_⟩
  · intro hw
    refine ⟨{ identifier := 0
              representation_key :=
                { identifier := 0
                  polynomial_size := sol.glwe_polynomial_size
                  glwe_dimension := sol.glwe_dimension
                  description := "big representation" }
              br_decomposition_parameter :=
                { level := sol.cb_decomposition_level_count
                  log2_base := sol.cb_decomposition_base_log }
              description := "circuit bootstrap for woppbs" },
            { identifier := 0
              representation_key :=
                { identifier := 0
                  polynomial_size := sol.glwe_polynomial_size
                  glwe_dimension := sol.glwe_dimension
                  description := "big representation" }
              br_decomposition_parameter :=
                { level := sol.pp_decomposition_level_count
                  log2_base := sol.pp_decomposition_base_log }
              description := "private functional packing for woppbs" },
            ?_, rfl, ?_, rfl⟩
    · show (if sol.use_wop_pbs then _ else []) = _
      rw [hw]
      simp
    · show (if sol.use_wop_pbs then _ else []) = _
      rw [hw]
      simp
  · intro hw
    constructor
    · show (if sol.use_wop_pbs then _ else []) = _
      rw [hw]
      simp
    · show (if sol.use_wop_pbs then _ else []) = _
      rw [hw]
      simp

/-- C3 (witness): the structure theorem applied to the default
solution with `use_wop_pbs` set, on the empty graph. -/
theorem c3_witness :
    ∃ big small ksk bsk,
      (convert_to_circuit_solution { DagSolution.default with use_wop_pbs := true }
          { circuits := [], compositions := [] }).circuit_keys.secret_keys = [big, small]
      ∧ big.polynomial_size = 0
      ∧ big.glwe_dimension = 0
      ∧ small.polynomial_size = 0
      ∧ small.glwe_dimension = 1
      ∧ (convert_to_circuit_solution { DagSolution.default with use_wop_pbs := true }
          { circuits := [], compositions := [] }).circuit_keys.keyswitch_keys = [ksk]
      ∧ ksk.input_key = big
      ∧ ksk.output_key = small
      ∧ (convert_to_circuit_solution { DagSolution.default with use_wop_pbs := true }
          { circuits := [], compositions := [] }).circuit_keys.bootstrap_keys = [bsk]
      ∧ bsk.input_key = small
      ∧ bsk.output_key = big
      ∧ ∃ cbk pfpk,
          (convert_to_circuit_solution { DagSolution.default with use_wop_pbs := true }
            { circuits := [], compositions := [] }).circuit_keys.circuit_bootstrap_keys
              = [cbk]
          ∧ cbk.representation_key = big
          ∧ (convert_to_circuit_solution { DagSolution.default with use_wop_pbs := true }
              { circuits := [],
                compositions := [] }).circuit_keys.private_functional_packing_keys
              = [pfpk]
          ∧ pfpk.representation_key = big := by
  obtain ⟨big, small, ksk, bsk, h1, h2, h3, h4, h5, h6, h7, h8, h9, h10, h11, h12, _⟩ :=
    c3_circuit_keys_structure { DagSolution.default with use_wop_pbs := true }
      { circuits := [], compositions := [] }
  obtain ⟨cbk, pfpk, hw1, hw2, hw3, hw4⟩ := h12 (by decide)
  exact ⟨big, small, ksk, bsk, h1, h2, h3, h4, h5, h6, h7, h8, h9, h10, h11,
    cbk, pfpk, hw1, hw2, hw3, hw4⟩

/-- C4: every identifier a produced `InstructionKeys` record
references (other than the distinguished `NO_KEY_ID`) is the
identifier of a key present in the corresponding vector of the
accompanying `CircuitKeys`. -/
theorem c4_instruction_keys_reference_valid :
    ∀ (sol : DagSolution) (dag : Dag) (ik : InstructionKeys),
      ik ∈ (convert_to_circuit_solution sol dag).instructions_keys →
      key_refs_ok (convert_to_circuit_solution sol dag).circuit_keys ik := by
  intro sol dag ik hmem
  simp only [convert_to_circuit_solution] at hmem
  replace hmem := List.eq_of_mem_replicate hmem
  subst hmem
  cases hw : sol.use_wop_pbs <;>
    simp [key_refs_ok, convert_to_circuit_solution, hw, NO_KEY_ID]

/-- C4 (witness): the key-consistency theorem applied to the default
solution on a one-operator graph. -/
theorem c4_witness :
    key_refs_ok
      (convert_to_circuit_solution DagSolution.default
        { circuits := [{ name := "main", ops := [⟨0, true, true⟩] }],
          compositions := [] }).circuit_keys
      { input_key := 0
        tlu_keyswitch_key := 0
        tlu_bootstrap_key := 0
        tlu_circuit_bootstrap_key := NO_KEY_ID
        tlu_private_functional_packing_key := NO_KEY_ID
        output_key := 0
        extra_conversion_keys := [] } := by
  refine c4_instruction_keys_reference_valid DagSolution.default
    { circuits := [{ name := "main", ops := [⟨0, true, true⟩] }], compositions := [] }
    _ ?_
  show _ ∈ List.replicate _ _
  simp [Dag.len, DagSolution.default]

/-- C8: `add_composition` resolves `from_pos` against the
from-circuit's outputs in declaration order and `to_pos` against the
to-circuit's inputs in declaration order and records the edge between
the resolved operator indices; a missing circuit name or an
out-of-range position is fatal (`none`). -/
theorem c8_add_composition_spec :
    ∀ (dag : Dag) (ff : String) (fp : Nat) (tf : String) (tp : Nat),
      (∀ fc tc fop top,
          dag.get_circuit ff = some fc →
          dag.get_circuit tf = some tc →
          fc.outputs[fp]? = some fop →
          tc.inputs[tp]? = some top →
          Dag.add_composition dag ff fp tf tp =
            some { dag with compositions := dag.compositions ++ [(fop.id, top.id)] })
      ∧ (dag.get_circuit ff = none → Dag.add_composition dag ff fp tf tp = none)
      ∧ (dag.get_circuit tf = none → Dag.add_composition dag ff fp tf tp = none)
      ∧ (∀ fc, dag.get_circuit ff = some fc → fc.outputs[fp]? = none →
          Dag.add_composition dag ff fp tf tp = none)
      ∧ (∀ tc, dag.get_circuit tf = some tc → tc.inputs[tp]? = none →
          Dag.add_composition dag ff fp tf tp = none) := by
  intro dag ff fp tf tp
  refine ⟨?_, ?_, ?_, ?_, ?_⟩
  · intro fc tc fop top h1 h2 h3 h4
    simp [Dag.add_composition, h1, h2, h3, h4]
  · intro h
    simp [Dag.add_composition, h]
  · intro h
    cases hfc : dag.get_circuit ff with
    | none => simp [Dag.add_composition, hfc]
    | some fc =>
      cases hfo : fc.outputs[fp]? with
      | none => simp [Dag.add_composition, hfc, hfo]
      | some fop => simp [Dag.add_composition, hfc, hfo, h]
  · intro fc h1 h2
    simp [Dag.add_composition, h1, h2]
  · intro tc h1 h2
    cases hfc : dag.get_circuit ff with
    | none => simp [Dag.add_composition, hfc]
    | some fc =>
      cases hfo : fc.outputs[fp]? with
      | none => simp [Dag.add_composition, hfc, hfo]
      | some fop => simp [Dag.add_composition, hfc, hfo, h1, h2]

/-- C8 (witness): wiring output slot 0 of circuit `f` to input slot 0
of circuit `g` records the edge between operator indices 1 and 2. -/
theorem c8_witness :
    Dag.add_composition c8_dag "f" 0 "g" 0 =
      some { c8_dag with compositions := [(1, 2)] } := by
  exact (c8_add_composition_spec c8_dag "f" 0 "g" 0).1
    { name := "f", ops := [⟨0, true, false⟩, ⟨1, false, true⟩] }
    { name := "g", ops := [⟨2, true, false⟩, ⟨3, false, true⟩] }
    ⟨1, false, true⟩ ⟨2, true, false⟩ rfl rfl rfl rfl

/-- C9 (counterexample): the claim's precondition (two secret keys;
when circuit-bootstrap keys exist, exactly one of them and one
private-functional-packing key) is satisfied by a solution whose
keyswitch and bootstrap key vectors are empty, yet the conversion
panics on the unchecked `keyswitch_keys[0]` indexing. -/
theorem c9_counterexample :
    claimed_wop_pre c9_bad_sol
    ∧ dag_solution_from_circuit_solution c9_bad_sol = none := by
  constructor
  · exact ⟨rfl, fun h => absurd rfl h⟩
  · rfl

/-- C9 (amended): the conversion from `ffi::CircuitSolution` to
`ffi::DagSolution` succeeds exactly under the claimed precondition
strengthened with non-empty keyswitch and bootstrap key vectors;
whenever it succeeds, `use_wop_pbs` is set iff the circuit-bootstrap
key vector is non-empty and `noise_max` is NaN. -/
theorem c9_conversion_characterized :
    ∀ sol : CircuitSolution,
      ((dag_solution_from_circuit_solution sol).isSome ↔ wop_conversion_pre sol)
      ∧ (∀ d, dag_solution_from_circuit_solution sol = some d →
          d.use_wop_pbs = !sol.circuit_keys.circuit_bootstrap_keys.isEmpty
          ∧ d.noise_max = F64.nan) := by
  intro sol
  obtain ⟨⟨sk, ksk, bsk, cvk, cbk, ppk⟩, ik, crt, cx, pe, gpe, fe, msg⟩ := sol
  rcases sk with _ | ⟨k1, _ | ⟨k2, _ | ⟨k3, skr⟩⟩⟩ <;>
    rcases ksk with _ | ⟨kk, kkr⟩ <;>
    rcases bsk with _ | ⟨bk, bkr⟩ <;>
    rcases cbk with _ | ⟨cb1, _ | ⟨cb2, cbr⟩⟩ <;>
    rcases ppk with _ | ⟨pp1, _ | ⟨pp2, ppr⟩⟩ <;>
    simp_all [dag_solution_from_circuit_solution, wop_conversion_pre]

/-- C9 (witness): the characterization applied to a minimal
well-formed circuit solution. -/
theorem c9_witness :
    (dag_solution_from_circuit_solution c9_good_sol).isSome := by
  refine ((c9_conversion_characterized c9_good_sol).1).mpr ⟨rfl, ?_, ?_, ?_⟩
  · exact List.cons_ne_nil _ _
  · exact List.cons_ne_nil _ _
  · intro h
    exact absurd rfl h

theorem splitCols_no_colon : ∀ cs : List Char, ':' ∉ cs → splitCols cs = [cs] := by
  intro cs
  induction cs with
  | nil => intro _; rfl
  | cons c rest ih =>
    intro h
    have hc : ¬ c = ':' := fun hh => h (hh ▸ List.mem_cons_self c rest)
    rw [splitCols, if_neg hc, ih (fun hm => h (List.mem_cons_of_mem _ hm))]

theorem splitCols_append : ∀ (a rest : List Char), ':' ∉ a →
    splitCols (a ++ ':' :: rest) = a :: splitCols rest := by
  intro a
  induction a with
  | nil => intro rest _; rw [List.nil_append, splitCols, if_pos rfl]
  | cons c a ih =>
    intro rest h
    have hc : ¬ c = ':' := fun hh => h (hh ▸ List.mem_cons_self c a)
    rw [List.cons_append, splitCols, if_neg hc,
      ih rest (fun hm => h (List.mem_cons_of_mem _ hm))]

theorem splitCols_length : ∀ cs : List Char, (splitCols cs).length = cs.count ':' + 1 := by
  intro cs
  induction cs with
  | nil => rfl
  | cons c rest ih =>
    by_cases hc : c = ':'
    · subst hc
      rw [splitCols, if_pos rfl]
      simp only [List.length_cons, ih, List.count_cons]
      simp
    · rw [splitCols, if_neg hc]
      cases hr : splitCols rest with
      | nil => rw [hr] at ih; simp at ih
      | cons g gs =>
        rw [hr] at ih
        simp only [List.length_cons] at ih ⊢
        rw [List.count_cons]
        simp [hc, ih]

/-- C10: `location_from_string` yields a `File` location on inputs
with no `:`, a `Line` location on one `:` (panicking, i.e. `none`,
when the line field does not parse as an unsigned integer), a
`LineColumn` location on two `:` (same panic behavior), `Unknown` on
four or more fields, and on the concrete inputs `file:abc`
(non-numeric field) and `file:18446744073709551616` (a numeric field
one past `u64::MAX`, which `parse()` rejects with `PosOverflow`) it
panics instead of returning `Unknown`. -/
theorem c10_location_from_string :
    (∀ s : List Char, ':' ∉ s → location_from_string s = some (Location.File s))
    ∧ (∀ a b : List Char, ':' ∉ a → ':' ∉ b →
        location_from_string (a ++ ':' :: b) =
          (parseU b).map (fun l => Location.Line a l))
    ∧ (∀ a b c : List Char, ':' ∉ a → ':' ∉ b → ':' ∉ c →
        location_from_string (a ++ ':' :: (b ++ ':' :: c)) =
          (parseU b).bind (fun l => (parseU c).map (fun col => Location.LineColumn a l col)))
    ∧ (∀ s : List Char, 3 ≤ s.count ':' → location_from_string s = some Location.Unknown)
    ∧ location_from_string ['f', 'i', 'l', 'e', ':', 'a', 'b', 'c'] = none
    ∧ location_from_string ['f', 'i', 'l', 'e', ':', '1', '8', '4', '4', '6', '7',
        '4', '4', '0', '7', '3', '7', '0', '9', '5', '5', '1', '6', '1', '6'] = none := by
  refine ⟨?_, ?_, ?_, ?_, by decide, by decide⟩
  · intro s h
    rw [location_from_string, splitCols_no_colon s h]
  · intro a b ha hb
    rw [location_from_string, splitCols_append a _ ha, splitCols_no_colon b hb]
    cases hp : parseU b <;> simp [hp]
  · intro a b c ha hb hc
    rw [location_from_string, splitCols_append a _ ha, splitCols_append b _ hb,
      splitCols_no_colon c hc]
    cases hp : parseU b <;> cases hq : parseU c <;> simp [hp, hq]
  · intro s h
    have hl := splitCols_length s
    rw [location_from_string]
    rcases hsp : splitCols s with _ | ⟨x1, _ | ⟨x2, _ | ⟨x3, _ | ⟨x4, t⟩⟩⟩⟩ <;>
      rw [hsp] at hl <;> simp at hl <;> try omega

theorem bitsVal_natBits : ∀ n : Nat, bitsVal (natBits n) = n := by
  intro n
  induction n using Nat.strong_induction_on with
  | _ n ih =>
    rw [natBits]
    by_cases h : n = 0
    · rw [dif_pos h, h]
      rfl
    · rw [dif_neg h]
      rw [bitsVal, ih (n / 2) (Nat.div_lt_self (Nat.pos_of_ne_zero h) one_lt_two)]
      have hd := Nat.div_add_mod n 2
      rcases Nat.mod_two_eq_zero_or_one n with h2 | h2
      · have hi : (if n % 2 = 1 then '1' else '0') = '0' := if_neg (by omega)
        rw [hi, if_neg (by decide : ¬ ('0' = '1'))]
        omega
      · have hi : (if n % 2 = 1 then '1' else '0') = '1' := if_pos h2
        rw [hi, if_pos rfl]
        omega

theorem natBits_bits : ∀ (n : Nat) (c : Char), c ∈ natBits n → c = '0' ∨ c = '1' := by
  intro n
  induction n using Nat.strong_induction_on with
  | _ n ih =>
    intro c hc
    rw [natBits] at hc
    by_cases h : n = 0
    · rw [dif_pos h] at hc
      simp at hc
    · rw [dif_neg h] at hc
      rcases List.mem_cons.mp hc with hc | hm
      · by_cases h2 : n % 2 = 1
        · right; rw [hc, if_pos h2]
        · left; rw [hc, if_neg h2]
      · exact ih (n / 2) (Nat.div_lt_self (Nat.pos_of_ne_zero h) one_lt_two) c hm

theorem takeBits_append : ∀ (bs rest : List Char), (∀ c ∈ bs, c = '0' ∨ c = '1') →
    takeBits (bs ++ 'e' :: rest) = some (bs, rest) := by
  intro bs
  induction bs with
  | nil =>
    intro rest _
    rw [List.nil_append, takeBits, if_pos rfl]
  | cons c bs ih =>
    intro rest h
    have hc := h c (List.mem_cons_self _ _)
    have hce : ¬ c = 'e' := by rcases hc with rfl | rfl <;> decide
    rw [List.cons_append, takeBits, if_neg hce, if_pos hc,
      ih rest (fun x hx => h x (List.mem_cons_of_mem _ hx))]

theorem takeBits_sound : ∀ (cs bs r : List Char), takeBits cs = some (bs, r) →
    cs = bs ++ 'e' :: r := by
  intro cs
  induction cs with
  | nil => intro bs r h; simp [takeBits] at h
  | cons c rest ih =>
    intro bs r h
    rw [takeBits] at h
    by_cases hce : c = 'e'
    · rw [if_pos hce] at h
      simp only [Option.some.injEq, Prod.mk.injEq] at h
      obtain ⟨rfl, rfl⟩ := h
      rw [hce]
      rfl
    · rw [if_neg hce] at h
      by_cases hb : c = '0' ∨ c = '1'
      · rw [if_pos hb] at h
        cases ht : takeBits rest with
        | none => rw [ht] at h; simp at h
        | some p =>
          obtain ⟨bs1, r1⟩ := p
          rw [ht] at h
          simp only [Option.some.injEq, Prod.mk.injEq] at h
          obtain ⟨h1, h2⟩ := h
          subst h1
          subst h2
          rw [List.cons_append, ih bs1 r1 ht]
      · rw [if_neg hb] at h
        simp at h

theorem parseNat_enc : ∀ (n : Nat) (rest : List Char),
    parseNat (encNat n ++ rest) = some (n, rest) := by
  intro n rest
  rw [parseNat]
  have he : encNat n ++ rest = natBits n ++ 'e' :: rest := by
    rw [encNat, List.append_assoc]
    rfl
  rw [he, takeBits_append (natBits n) rest (natBits_bits n)]
  show (if natBits (bitsVal (natBits n)) = natBits n then
      some (bitsVal (natBits n), rest) else none) = some (n, rest)
  rw [bitsVal_natBits n, if_pos rfl]

theorem parseNat_sound : ∀ (cs : List Char) (n : Nat) (r : List Char),
    parseNat cs = some (n, r) → cs = encNat n ++ r := by
  intro cs n r h
  rw [parseNat] at h
  cases ht : takeBits cs with
  | none => rw [ht] at h; simp at h
  | some p =>
    obtain ⟨bs, r1⟩ := p
    rw [ht] at h
    have h' : (if natBits (bitsVal bs) = bs then
        some (bitsVal bs, r1) else none) = some (n, r) := h
    by_cases hg : natBits (bitsVal bs) = bs
    · rw [if_pos hg] at h'
      simp only [Option.some.injEq, Prod.mk.injEq] at h'
      obtain ⟨h1, h2⟩ := h'
      subst h1
      subst h2
      rw [takeBits_sound cs bs r1 ht, encNat, hg, List.append_assoc]
      rfl
    · rw [if_neg hg] at h'
      simp at h'

theorem parseNat_len : ∀ (cs : List Char) (n : Nat) (r : List Char),
    parseNat cs = some (n, r) → r.length < cs.length := by
  intro cs n r h
  rw [parseNat_sound cs n r h, encNat]
  simp
  omega

theorem encNat_head : ∀ n : Nat, ∃ c cs, encNat n = c :: cs ∧ c ≠ ';' := by
  intro n
  cases hb : natBits n with
  | nil => exact ⟨'e', [], by rw [encNat, hb]; rfl, by decide⟩
  | cons c cs =>
    refine ⟨c, cs ++ ['e'], by rw [encNat, hb]; rfl, ?_⟩
    have := natBits_bits n c (hb ▸ List.mem_cons_self c cs)
    rcases this with rfl | rfl <;> decide

theorem encNat_ne_nil : ∀ n : Nat, encNat n ≠ [] := by
  intro n h
  obtain ⟨c, cs, hc, _⟩ := encNat_head n
  rw [hc] at h
  simp at h

theorem encList_cons {α : Type _} (ee : α → List Char) (a : α) (l : List α) :
    encList ee (a :: l) = ee a ++ encList ee l := by
  simp [encList]

theorem encList_length {α : Type _} (ee : α → List Char) (hne : ∀ a, ee a ≠ []) :
    ∀ l : List α, l.length + 1 ≤ (encList ee l).length := by
  intro l
  induction l with
  | nil => simp [encList]
  | cons a l ih =>
    rw [encList_cons]
    have h1 : 1 ≤ (ee a).length := List.length_pos.mpr (hne a)
    simp only [List.length_append, List.length_cons]
    omega

theorem parseListF_enc {α : Type _} (pe : List Char → Option (α × List Char))
    (ee : α → List Char)
    (hpe : ∀ a rest, pe (ee a ++ rest) = some (a, rest))
    (hhead : ∀ a, ∃ c cs, ee a = c :: cs ∧ c ≠ ';') :
    ∀ (l : List α) (fuel : Nat) (rest : List Char), l.length < fuel →
      parseListF pe fuel (encList ee l ++ rest) = some (l, rest) := by
  intro l
  induction l with
  | nil =>
    intro fuel rest hf
    cases fuel with
    | zero => exact absurd hf (Nat.not_lt_zero _)
    | succ f =>
      have : encList ee ([] : List α) ++ rest = ';' :: rest := by simp [encList]
      rw [this, parseListF, if_pos rfl]
  | cons a l ih =>
    intro fuel rest hf
    cases fuel with
    | zero => exact absurd hf (Nat.not_lt_zero _)
    | succ f =>
      obtain ⟨c, cs, hec, hcne⟩ := hhead a
      have hsplit : encList ee (a :: l) ++ rest = c :: (cs ++ (encList ee l ++ rest)) := by
        rw [encList_cons, List.append_assoc, hec]
        rfl
      rw [hsplit, parseListF, if_neg hcne]
      have hee : c :: (cs ++ (encList ee l ++ rest)) = ee a ++ (encList ee l ++ rest) := by
        rw [hec]
        rfl
      rw [hee, hpe a _]
      show (match parseListF pe f (encList ee l ++ rest) with
          | none => none
          | some (l2, r2) => some (a :: l2, r2)) = some (a :: l, rest)
      rw [ih f rest (Nat.lt_of_succ_lt_succ hf)]

theorem parseListF_sound {α : Type _} (pe : List Char → Option (α × List Char))
    (ee : α → List Char)
    (hsound : ∀ cs a r, pe cs = some (a, r) → cs = ee a ++ r) :
    ∀ (fuel : Nat) (cs : List Char) (l : List α) (r : List Char),
      parseListF pe fuel cs = some (l, r) → cs = encList ee l ++ r := by
  intro fuel
  induction fuel with
  | zero => intro cs l r h; simp [parseListF] at h
  | succ f ih =>
    intro cs l r h
    cases cs with
    | nil => simp [parseListF] at h
    | cons c rest =>
      rw [parseListF] at h
      by_cases hc : c = ';'
      · rw [if_pos hc] at h
        simp only [Option.some.injEq, Prod.mk.injEq] at h
        obtain ⟨rfl, rfl⟩ := h
        rw [hc]
        simp [encList]
      · rw [if_neg hc] at h
        cases hp : pe (c :: rest) with
        | none => rw [hp] at h; simp at h
        | some p =>
          obtain ⟨a, r1⟩ := p
          rw [hp] at h
          have h' : (match parseListF pe f r1 with
              | none => none
              | some (l2, r2) => some (a :: l2, r2)) = some (l, r) := h
          cases hq : parseListF pe f r1 with
          | none => rw [hq] at h'; simp at h'
          | some q =>
            obtain ⟨l1, r2⟩ := q
            rw [hq] at h'
            simp only [Option.some.injEq, Prod.mk.injEq] at h'
            obtain ⟨h1, h2⟩ := h'
            subst h1
            subst h2
            rw [hsound _ _ _ hp, ih r1 l1 r2 hq, encList_cons, List.append_assoc]

theorem parseNatList_enc : ∀ (l : List Nat) (rest : List Char),
    parseNatList (encList encNat l ++ rest) = some (l, rest) := by
  intro l rest
  rw [parseNatList]
  refine parseListF_enc parseNat encNat parseNat_enc encNat_head l _ rest ?_
  have h1 := encList_length encNat encNat_ne_nil l
  simp only [List.length_append]
  omega

theorem parseNatList_sound : ∀ (cs : List Char) (l : List Nat) (r : List Char),
    parseNatList cs = some (l, r) → cs = encList encNat l ++ r := by
  intro cs l r h
  exact parseListF_sound parseNat encNat parseNat_sound _ cs l r h

theorem parseSecretInfo_enc : ∀ (k : LweSecretKeyInfo) (rest : List Char),
    parseSecretInfo (encSecretInfo k ++ rest) = some (k, rest) := by
  intro k rest
  simp [parseSecretInfo, encSecretInfo, parseNat_enc]

theorem parseSecretInfo_sound : ∀ (cs : List Char) (k : LweSecretKeyInfo) (r : List Char),
    parseSecretInfo cs = some (k, r) → cs = encSecretInfo k ++ r := by
  intro cs k r h
  simp only [parseSecretInfo, Option.bind_eq_some, Option.some.injEq,
    Prod.mk.injEq] at h
  obtain ⟨⟨n, r1⟩, hp, h1, h2⟩ := h
  subst h1
  subst h2
  exact parseNat_sound cs n r1 hp

theorem encSecretInfo_head : ∀ k : LweSecretKeyInfo,
    ∃ c cs, encSecretInfo k = c :: cs ∧ c ≠ ';' :=
  fun k => encNat_head k.lwe_dimension

theorem encSecretInfo_ne_nil : ∀ k : LweSecretKeyInfo, encSecretInfo k ≠ [] :=
  fun k => encNat_ne_nil k.lwe_dimension

theorem parseBskInfo_enc : ∀ (k : LweBootstrapKeyInfo) (rest : List Char),
    parseBskInfo (encBskInfo k ++ rest) = some (k, rest) := by
  intro k rest
  simp [parseBskInfo, encBskInfo, List.append_assoc, parseNat_enc]

theorem parseBskInfo_sound : ∀ (cs : List Char) (k : LweBootstrapKeyInfo) (r : List Char),
    parseBskInfo cs = some (k, r) → cs = encBskInfo k ++ r := by
  intro cs k r h
  simp only [parseBskInfo, Option.bind_eq_some, Option.some.injEq,
    Prod.mk.injEq] at h
  obtain ⟨⟨a, r1⟩, hp1, ⟨b, r2⟩, hp2, ⟨c, r3⟩, hp3, ⟨d, r4⟩, hp4,
    ⟨e, r5⟩, hp5, h1, h2⟩ := h
  subst h1
  subst h2
  dsimp only at hp2 hp3 hp4 hp5 ⊢
  rw [parseNat_sound _ _ _ hp1, parseNat_sound _ _ _ hp2, parseNat_sound _ _ _ hp3,
    parseNat_sound _ _ _ hp4, parseNat_sound _ _ _ hp5]
  simp [encBskInfo, List.append_assoc]

theorem encBskInfo_head : ∀ k : LweBootstrapKeyInfo,
    ∃ c cs, encBskInfo k = c :: cs ∧ c ≠ ';' := by
  intro k
  obtain ⟨c, cs, hc, hne⟩ := encNat_head k.level_count
  refine ⟨c, cs ++ (encNat k.base_log ++ encNat k.glwe_dimension
    ++ encNat k.polynomial_size ++ encNat k.input_lwe_dimension), ?_, hne⟩
  rw [encBskInfo, hc]
  simp [List.append_assoc]

theorem encBskInfo_ne_nil : ∀ k : LweBootstrapKeyInfo, encBskInfo k ≠ [] := by
  intro k h
  obtain ⟨c, cs, hc, _⟩ := encBskInfo_head k
  rw [hc] at h
  simp at h

theorem parseKskInfo_enc : ∀ (k : LweKeyswitchKeyInfo) (rest : List Char),
    parseKskInfo (encKskInfo k ++ rest) = some (k, rest) := by
  intro k rest
  simp [parseKskInfo, encKskInfo, List.append_assoc, parseNat_enc]

theorem parseKskInfo_sound : ∀ (cs : List Char) (k : LweKeyswitchKeyInfo) (r : List Char),
    parseKskInfo cs = some (k, r) → cs = encKskInfo k ++ r := by
  intro cs k r h
  simp only [parseKskInfo, Option.bind_eq_some, Option.some.injEq,
    Prod.mk.injEq] at h
  obtain ⟨⟨a, r1⟩, hp1, ⟨b, r2⟩, hp2, ⟨c, r3⟩, hp3, ⟨d, r4⟩, hp4, h1, h2⟩ := h
  subst h1
  subst h2
  dsimp only at hp2 hp3 hp4 ⊢
  rw [parseNat_sound _ _ _ hp1, parseNat_sound _ _ _ hp2, parseNat_sound _ _ _ hp3,
    parseNat_sound _ _ _ hp4]
  simp [encKskInfo, List.append_assoc]

theorem encKskInfo_head : ∀ k : LweKeyswitchKeyInfo,
    ∃ c cs, encKskInfo k = c :: cs ∧ c ≠ ';' := by
  intro k
  obtain ⟨c, cs, hc, hne⟩ := encNat_head k.level_count
  refine ⟨c, cs ++ (encNat k.base_log ++ encNat k.input_lwe_dimension
    ++ encNat k.output_lwe_dimension), ?_, hne⟩
  rw [encKskInfo, hc]
  simp [List.append_assoc]

theorem encKskInfo_ne_nil : ∀ k : LweKeyswitchKeyInfo, encKskInfo k ≠ [] := by
  intro k h
  obtain ⟨c, cs, hc, _⟩ := encKskInfo_head k
  rw [hc] at h
  simp at h

theorem parseSecretList_enc : ∀ (l : List LweSecretKeyInfo) (rest : List Char),
    parseSecretList (encList encSecretInfo l ++ rest) = some (l, rest) := by
  intro l rest
  rw [parseSecretList]
  refine parseListF_enc parseSecretInfo encSecretInfo parseSecretInfo_enc
    encSecretInfo_head l _ rest ?_
  have h1 := encList_length encSecretInfo encSecretInfo_ne_nil l
  simp only [List.length_append]
  omega

theorem parseSecretList_sound : ∀ (cs : List Char) (l : List LweSecretKeyInfo)
    (r : List Char), parseSecretList cs = some (l, r) →
    cs = encList encSecretInfo l ++ r :=
  fun cs l r h =>
    parseListF_sound parseSecretInfo encSecretInfo parseSecretInfo_sound _ cs l r h

theorem parseBskList_enc : ∀ (l : List LweBootstrapKeyInfo) (rest : List Char),
    parseBskList (encList encBskInfo l ++ rest) = some (l, rest) := by
  intro l rest
  rw [parseBskList]
  refine parseListF_enc parseBskInfo encBskInfo parseBskInfo_enc
    encBskInfo_head l _ rest ?_
  have h1 := encList_length encBskInfo encBskInfo_ne_nil l
  simp only [List.length_append]
  omega

theorem parseBskList_sound : ∀ (cs : List Char) (l : List LweBootstrapKeyInfo)
    (r : List Char), parseBskList cs = some (l, r) → cs = encList encBskInfo l ++ r :=
  fun cs l r h =>
    parseListF_sound parseBskInfo encBskInfo parseBskInfo_sound _ cs l r h

theorem parseKskList_enc : ∀ (l : List LweKeyswitchKeyInfo) (rest : List Char),
    parseKskList (encList encKskInfo l ++ rest) = some (l, rest) := by
  intro l rest
  rw [parseKskList]
  refine parseListF_enc parseKskInfo encKskInfo parseKskInfo_enc
    encKskInfo_head l _ rest ?_
  have h1 := encList_length encKskInfo encKskInfo_ne_nil l
  simp only [List.length_append]
  omega

theorem parseKskList_sound : ∀ (cs : List Char) (l : List LweKeyswitchKeyInfo)
    (r : List Char), parseKskList cs = some (l, r) → cs = encList encKskInfo l ++ r :=
  fun cs l r h =>
    parseListF_sound parseKskInfo encKskInfo parseKskInfo_sound _ cs l r h

theorem parseRange_enc : ∀ (r : RangeRestriction) (rest : List Char),
    parseRange (encRange r ++ rest) = some (r, rest) := by
  intro r rest
  simp [parseRange, encRange, List.append_assoc, parseNatList_enc]

theorem parseRange_sound : ∀ (cs : List Char) (r : RangeRestriction) (rem : List Char),
    parseRange cs = some (r, rem) → cs = encRange r ++ rem := by
  intro cs r rem h
  simp only [parseRange, Option.bind_eq_some, Option.some.injEq, Prod.mk.injEq] at h
  obtain ⟨⟨f1, r1⟩, hp1, ⟨f2, r2⟩, hp2, ⟨f3, r3⟩, hp3, ⟨f4, r4⟩, hp4,
    ⟨f5, r5⟩, hp5, ⟨f6, r6⟩, hp6, ⟨f7, r7⟩, hp7, h1, h2⟩ := h
  subst h1
  subst h2
  dsimp only at hp2 hp3 hp4 hp5 hp6 hp7 ⊢
  rw [parseNatList_sound _ _ _ hp1, parseNatList_sound _ _ _ hp2,
    parseNatList_sound _ _ _ hp3, parseNatList_sound _ _ _ hp4,
    parseNatList_sound _ _ _ hp5, parseNatList_sound _ _ _ hp6,
    parseNatList_sound _ _ _ hp7]
  simp [encRange, List.append_assoc]

theorem parseKeyset_enc : ∀ (k : KeysetRestriction) (rest : List Char),
    parseKeyset (encKeyset k ++ rest) = some (k, rest) := by
  intro k rest
  simp [parseKeyset, encKeyset, List.append_assoc, parseSecretList_enc,
    parseBskList_enc, parseKskList_enc]

theorem parseKeyset_sound : ∀ (cs : List Char) (k : KeysetRestriction) (rem : List Char),
    parseKeyset cs = some (k, rem) → cs = encKeyset k ++ rem := by
  intro cs k rem h
  simp only [parseKeyset, Option.bind_eq_some, Option.some.injEq, Prod.mk.injEq] at h
  obtain ⟨⟨l1, r1⟩, hp1, ⟨l2, r2⟩, hp2, ⟨l3, r3⟩, hp3, h1, h2⟩ := h
  subst h1
  subst h2
  dsimp only at hp2 hp3 ⊢
  rw [parseSecretList_sound _ _ _ hp1, parseBskList_sound _ _ _ hp2,
    parseKskList_sound _ _ _ hp3]
  simp [encKeyset, List.append_assoc]

theorem encRange_ne_nil : ∀ r : RangeRestriction, encRange r ≠ [] := by
  intro r h
  simp [encRange, encList] at h

theorem encKeyset_ne_nil : ∀ k : KeysetRestriction, encKeyset k ≠ [] := by
  intro k h
  simp [encKeyset, encList] at h

/-- C6: serializing a range restriction or a keyset restriction to the
textual interchange form and parsing it back yields the original
value, field for field. -/
theorem c6_restriction_roundtrip :
    (∀ r : RangeRestriction,
        range_restriction_from_json (range_restriction_to_json r) = some r)
    ∧ (∀ k : KeysetRestriction,
        keyset_restriction_from_json (keyset_restriction_to_json k) = some k) := by
  constructor
  · intro r
    have hp : parseRange (encRange r) = some (r, []) := by
      have h := parseRange_enc r []
      rwa [List.append_nil] at h
    show (match parseRange (encRange r) with
        | some (r', []) => some r'
        | _ => none) = some r
    rw [hp]
  · intro k
    have hp : parseKeyset (encKeyset k) = some (k, []) := by
      have h := parseKeyset_enc k []
      rwa [List.append_nil] at h
    show (match parseKeyset (encKeyset k) with
        | some (k', []) => some k'
        | _ => none) = some k
    rw [hp]

/-- C7: an input that is not a serialized restriction payload (not in
the image of the serializer) makes the deserializer fail fatally
(`none`, the model of the aborting `unwrap`); it never produces a
degraded or default restriction value. -/
theorem c7_malformed_input_rejected :
    (∀ s : String, (∀ r : RangeRestriction, s ≠ range_restriction_to_json r) →
        range_restriction_from_json s = none)
    ∧ (∀ s : String, (∀ k : KeysetRestriction, s ≠ keyset_restriction_to_json k) →
        keyset_restriction_from_json s = none) := by
  constructor
  · intro s hs
    cases hv : range_restriction_from_json s with
    | none => rfl
    | some r =>
      exfalso
      rw [range_restriction_from_json] at hv
      have hp : parseRange s.data = some (r, []) := by
        cases hq : parseRange s.data with
        | none => rw [hq] at hv; simp at hv
        | some p =>
          obtain ⟨r', rem⟩ := p
          rw [hq] at hv
          cases rem with
          | nil =>
            have hr : r' = r := by simpa using hv
            rw [hr]
          | cons x xs => simp at hv
      have h2 := parseRange_sound _ _ _ hp
      rw [List.append_nil] at h2
      apply hs r
      obtain ⟨d⟩ := s
      exact congrArg String.mk h2
  · intro s hs
    cases hv : keyset_restriction_from_json s with
    | none => rfl
    | some k =>
      exfalso
      rw [keyset_restriction_from_json] at hv
      have hp : parseKeyset s.data = some (k, []) := by
        cases hq : parseKeyset s.data with
        | none => rw [hq] at hv; simp at hv
        | some p =>
          obtain ⟨k', rem⟩ := p
          rw [hq] at hv
          cases rem with
          | nil =>
            have hr : k' = k := by simpa using hv
            rw [hr]
          | cons x xs => simp at hv
      have h2 := parseKeyset_sound _ _ _ hp
      rw [List.append_nil] at h2
      apply hs k
      obtain ⟨d⟩ := s
      exact congrArg String.mk h2

/-- C7 (witness): the empty string is not a serialized payload and is
rejected by both deserializers. -/
theorem c7_witness :
    range_restriction_from_json (String.mk []) = none
    ∧ keyset_restriction_from_json (String.mk []) = none := by
  constructor
  · refine c7_malformed_input_rejected.1 (String.mk []) ?_
    intro r h
    exact encRange_ne_nil r ((congrArg String.data h).symm)
  · refine c7_malformed_input_rejected.2 (String.mk []) ?_
    intro k h
    exact encKeyset_ne_nil k ((congrArg String.data h).symm)

/-- C10 (witness): the characterization applied at concrete inputs. -/
theorem c10_witness :
    location_from_string ['a'] = some (Location.File ['a'])
    ∧ location_from_string (['a'] ++ ':' :: ['7']) = some (Location.Line ['a'] 7) := by
  constructor
  · exact c10_location_from_string.1 ['a'] (by decide)
  · exact (c10_location_from_string.2.1 ['a'] ['7'] (by decide) (by decide)).trans (by decide)

end CO
